import Mathlib

/-!
Verification of the `storage` package of bulbetski/kvstorage-srv.

The Go source is embedded shallowly:
* the ambient clock (`time.Now().UnixNano()`) becomes an explicit `now : Int`
  parameter of every operation that reads it;
* `map[string]Item` becomes an association list `List (String × Item)`
  (Go maps have unique keys, so theorems that need it take a
  key-uniqueness hypothesis);
* the dynamically typed `interface{}` payload becomes the sum type `GoValue`
  with a runtime type tag, as the spec's design notes prescribe for
  languages without type erasure;
* mutation of the receiver becomes returning the new `Storage`; a Go `error`
  result becomes an `Option String` (the message) or a `Bool` success flag;
* locking is dropped: each operation is a single atomic state transformer,
  which is exactly the atomicity the locks enforce.
-/

namespace KVStorage

/-- Mirrors the dynamically typed `interface{}` payload stored in an `Item`.
A fixed set of value kinds with runtime tags, per the spec's design note on
type-erased payloads. -/
inductive GoValue where
  | vstr : String → GoValue
  | vint : Int → GoValue
  | vbool : Bool → GoValue
deriving DecidableEq

/-- Mirrors `type Item struct { Object interface{}; Expiration int64 }`. -/
structure Item where
  Object : GoValue
  Expiration : Int
deriving DecidableEq

/-- Mirrors `func (item *Item) Expired() bool`: an item never expires when its
`Expiration == 0`; otherwise it is expired iff `now > item.Expiration`. -/
def Item.Expired (item : Item) (now : Int) : Bool :=
  if item.Expiration = 0 then false
  else decide (now > item.Expiration)

/-- Mirrors `NoExpiration time.Duration = -1`. -/
def NoExpiration : Int := -1

/-- Mirrors `DefaultExpiration time.Duration = 0`. -/
def DefaultExpiration : Int := 0

/-- Lookup in the association-list model of `map[string]Item`:
`m[key]` returning `(item, found)`. -/
def mapLookup (xs : List (String × Item)) (k : String) : Option Item :=
  match xs with
  | [] => none
  | (k', v) :: rest => if k' = k then some v else mapLookup rest k

/-- Insert-or-replace in the association-list model of `map[string]Item`:
the Go map assignment `m[key] = item`. -/
def mapSet (xs : List (String × Item)) (k : String) (v : Item) : List (String × Item) :=
  match xs with
  | [] => [(k, v)]
  | (k', v') :: rest => if k' = k then (k, v) :: rest else (k', v') :: mapSet rest k v

/-- Mirrors `type janitor struct { Interval time.Duration; stop chan bool }`;
`stopSignaled` records whether a value was sent on the `stop` channel. -/
structure Janitor where
  Interval : Int
  stopSignaled : Bool
deriving DecidableEq

/-- Mirrors `type Storage struct`: the default expiration, the item table and
the attached janitor.  The `filePath` field and the lock are not modelled
(the former is never read; the latter only serialises the operations, which
the state-transformer embedding already does). -/
structure Storage where
  defaultExpiration : Int
  items : List (String × Item)
  janitor : Option Janitor
deriving DecidableEq

/-- Mirrors `func (s *Storage) Set(key, value, duration)`: substitute the
default for duration `0`, compute an absolute expiry only for a positive
duration (otherwise store the never-expire sentinel `0`), and upsert. -/
def Storage.Set (s : Storage) (now : Int) (key : String) (value : GoValue)
    (duration : Int) : Storage :=
  let d := if duration = DefaultExpiration then s.defaultExpiration else duration
  let exp : Int := if d > 0 then now + d else 0
  { s with items := mapSet s.items key { Object := value, Expiration := exp } }

/-- Mirrors the unexported `func (s *Storage) set(key, value, duration)`;
its body is identical to `Set` minus the locking. -/
def Storage.set (s : Storage) (now : Int) (key : String) (value : GoValue)
    (duration : Int) : Storage :=
  let d := if duration = DefaultExpiration then s.defaultExpiration else duration
  let exp : Int := if d > 0 then now + d else 0
  { s with items := mapSet s.items key { Object := value, Expiration := exp } }

/-- Mirrors `func (s *Storage) Add(key, value, duration) error`: fail when the
key is found in the table (regardless of expiry), otherwise insert via `set`.
The `Option String` is the returned `error` (`none` = `nil`). -/
def Storage.Add (s : Storage) (now : Int) (key : String) (value : GoValue)
    (duration : Int) : Storage × Option String :=
  match mapLookup s.items key with
  | some _ => (s, some ("item " ++ key ++ " already exists"))
  | none => (s.set now key value duration, none)

/-- Mirrors `func (s *Storage) Delete(key) bool`. -/
def Storage.Delete (s : Storage) (key : String) : Storage × Bool :=
  match mapLookup s.items key with
  | some _ => ({ s with items := s.items.filter (fun kv => decide (kv.1 ≠ key)) }, true)
  | none => (s, false)

/-- Mirrors `func (s *Storage) Get(key) (interface{}, bool)`: `(nil, false)`
when the key is absent or the entry has a positive expiry in the past;
otherwise the stored object and `true`.  `none` models Go's `nil`. -/
def Storage.Get (s : Storage) (now : Int) (key : String) : Option GoValue × Bool :=
  match mapLookup s.items key with
  | none => (none, false)
  | some item =>
    if item.Expiration > 0 ∧ now > item.Expiration then (none, false)
    else (some item.Object, true)

/-- Mirrors `func (s *Storage) Items() map[string]Item`: a fresh copy of the
table that skips every entry with a positive expiry that is before `now`. -/
def Storage.Items (s : Storage) (now : Int) : List (String × Item) :=
  s.items.filter (fun kv => decide ¬(kv.2.Expiration > 0 ∧ now > kv.2.Expiration))

/-- Mirrors `func (s *Storage) ItemCount() int`: the raw size of the table. -/
def Storage.ItemCount (s : Storage) : Int :=
  s.items.length

/-- Mirrors `func (s *Storage) DeleteExpired()`: `now` is read once before the
scan, and every entry with a positive expiry before `now` is deleted. -/
def Storage.DeleteExpired (s : Storage) (now : Int) : Storage :=
  { s with items := s.items.filter (fun kv => decide ¬(kv.2.Expiration > 0 ∧ now > kv.2.Expiration)) }

/-- Mirrors `func stopJanitor(s *Storage)`: send on the janitor's stop
channel. -/
def stopJanitor (s : Storage) : Storage :=
  { s with janitor := s.janitor.map (fun j => { j with stopSignaled := true }) }

/-- Mirrors `func runJanitor(s *Storage, interval)`: attach a fresh janitor. -/
def runJanitor (s : Storage) (interval : Int) : Storage :=
  { s with janitor := some { Interval := interval, stopSignaled := false } }

/-- Mirrors `func newStorage(de, m)`: a zero default expiration is silently
replaced by `NoExpiration`. -/
def newStorage (de : Int) (m : List (String × Item)) : Storage :=
  { defaultExpiration := if de = 0 then NoExpiration else de
    items := m
    janitor := none }

/-- Mirrors `func newsWithJanitor(de, ci, m)`: when the cleanup interval is
positive, start a janitor and register `stopJanitor` as a garbage-collection
finalizer via `runtime.SetFinalizer(s, stopJanitor)`.  The second component
models the registered finalizer (`none` when no finalizer is registered). -/
def newsWithJanitor (de ci : Int) (m : List (String × Item)) :
    Storage × Option (Storage → Storage) :=
  let s := newStorage de m
  if ci > 0 then (runJanitor s ci, some stopJanitor) else (s, none)

/-- Mirrors `func New(defaultExpiration, cleanupInterval, DBSize)`; the size
is only a capacity hint for the empty map. -/
def New (defaultExpiration cleanupInterval : Int) :
    Storage × Option (Storage → Storage) :=
  newsWithJanitor defaultExpiration cleanupInterval []

/-- The exported operations of the `storage` package, transcribed from the
source: `Set`, `Add`, `Delete`, `Get`, `Items`, `ItemCount`, `DeleteExpired`,
`Save`, `SaveFile`, `Load`, `LoadFile`, `New`.  (`set`, `newStorage`,
`newsWithJanitor`, `runJanitor`, `stopJanitor` and `janitor.Run` are
unexported.) -/
inductive StorageOp where
  | setOp | addOp | deleteOp | getOp | itemsOp | itemCountOp
  | deleteExpiredOp | saveOp | saveFileOp | loadOp | loadFileOp | newOp
deriving DecidableEq

/-- Whether the body of the exported operation sends on the janitor's stop
channel (`s.janitor.stop <- ...`).  Read off each operation's body in the
source: none of them mentions the janitor at all, so every case is `false`. -/
def StorageOp.stopsJanitor : StorageOp → Bool
  | .setOp => false
  | .addOp => false
  | .deleteOp => false
  | .getOp => false
  | .itemsOp => false
  | .itemCountOp => false
  | .deleteExpiredOp => false
  | .saveOp => false
  | .saveFileOp => false
  | .loadOp => false
  | .loadFileOp => false
  | .newOp => false

/-- Modelled from the spec: the `encoding/gob` codec used by `Save`/`Load` is
Go's standard library, not part of this repository.  Per the spec it is a
self-describing binary form that carries a runtime type tag with every value
so heterogeneous values round-trip.  The byte stream is abstracted as a
`List Nat` of symbols; an `Int` is a sign symbol followed by a magnitude. -/
def encInt (i : Int) : List Nat :=
  if i ≥ 0 then [0, i.toNat] else [1, (-i).toNat]

/-- Modelled from the spec: a string is its length followed by its character
codes. -/
def encString (s : String) : List Nat :=
  s.data.length :: s.data.map Char.toNat

/-- Modelled from the spec: a value is a type tag (`0` string, `1` int,
`2` bool) followed by its data — the gob property that each value's dynamic
type travels with it. -/
def encValue : GoValue → List Nat
  | .vstr s => 0 :: encString s
  | .vint i => 1 :: encInt i
  | .vbool b => [2, if b then 1 else 0]

/-- Modelled from the spec: one `key → Item` binding is the key, the absolute
expiry instant, then the tagged value. -/
def encEntry (kv : String × Item) : List Nat :=
  encString kv.1 ++ encInt kv.2.Expiration ++ encValue kv.2.Object

/-- Modelled from the spec: the bindings of a snapshot, concatenated. -/
def encEntries : List (String × Item) → List Nat
  | [] => []
  | kv :: rest => encEntry kv ++ encEntries rest

/-- Modelled from the spec: a whole snapshot is its size followed by its
bindings — the encoding `Save` writes through `gob.Encode`. -/
def encodeItems (m : List (String × Item)) : List Nat :=
  m.length :: encEntries m

/-- Modelled from the spec: decoder for `encInt`; fails on a malformed
stream. -/
def decInt : List Nat → Option (Int × List Nat)
  | 0 :: n :: rest => some ((n : Int), rest)
  | 1 :: n :: rest => some (-(n : Int), rest)
  | _ => none

/-- Modelled from the spec: read `n` character codes off the stream. -/
def decChars : Nat → List Nat → Option (List Char × List Nat)
  | 0, l => some ([], l)
  | _ + 1, [] => none
  | n + 1, c :: rest =>
    match decChars n rest with
    | some (cs, r) => some (Char.ofNat c :: cs, r)
    | none => none

/-- Modelled from the spec: decoder for `encString`. -/
def decString : List Nat → Option (String × List Nat)
  | [] => none
  | n :: rest =>
    match decChars n rest with
    | some (cs, r) => some (String.mk cs, r)
    | none => none

/-- Modelled from the spec: decoder for `encValue`; fails on an unknown type
tag, the gob failure mode for an unregistered dynamic type. -/
def decValue : List Nat → Option (GoValue × List Nat)
  | 0 :: rest =>
    match decString rest with
    | some (s, r) => some (.vstr s, r)
    | none => none
  | 1 :: rest =>
    match decInt rest with
    | some (i, r) => some (.vint i, r)
    | none => none
  | 2 :: 0 :: rest => some (.vbool false, rest)
  | 2 :: 1 :: rest => some (.vbool true, rest)
  | _ => none

/-- Modelled from the spec: decoder for `encEntry`. -/
def decEntry (l : List Nat) : Option ((String × Item) × List Nat) :=
  match decString l with
  | none => none
  | some (k, r1) =>
    match decInt r1 with
    | none => none
    | some (e, r2) =>
      match decValue r2 with
      | none => none
      | some (v, r3) => some ((k, { Object := v, Expiration := e }), r3)

/-- Modelled from the spec: decode exactly `n` bindings. -/
def decEntries : Nat → List Nat → Option (List (String × Item) × List Nat)
  | 0, l => some ([], l)
  | n + 1, l =>
    match decEntry l with
    | none => none
    | some (kv, r) =>
      match decEntries n r with
      | none => none
      | some (xs, r') => some (kv :: xs, r')

/-- Modelled from the spec: decode a whole snapshot, requiring the stream to
be consumed exactly; any leftover or shortfall is a decode error — the
`CorruptData` failure `gob.Decode` reports for truncated or malformed data. -/
def decodeItems : List Nat → Option (List (String × Item))
  | [] => none
  | n :: rest =>
    match decEntries n rest with
    | some (xs, []) => some xs
    | _ => none

/-- Mirrors `func (s *Storage) Save(w) error`: encode the `Items()` snapshot
(so already-expired entries are excluded) after registering every value's
dynamic type.  The write target is the returned stream. -/
def Storage.Save (s : Storage) (now : Int) : List Nat :=
  encodeItems (s.Items now)

/-- Mirrors `func (s *Storage) Load(r) error`: decode into a fresh local map;
only when decoding succeeded (`err == nil`) merge every decoded binding into
the live table.  The `Bool` is true iff no error is returned. -/
def Storage.Load (s : Storage) (stream : List Nat) : Storage × Bool :=
  match decodeItems stream with
  | some items =>
    ({ s with items := items.foldl (fun acc kv => mapSet acc kv.1 kv.2) s.items }, true)
  | none => (s, false)

/-- Key-uniqueness of the association-list model, an invariant of every state
drawn from a Go `map[string]Item`. -/
abbrev NodupKeys (xs : List (String × Item)) : Prop :=
  (xs.map Prod.fst).Nodup

/-- Well-formedness of a table: every expiration field is the sentinel `0` or
an absolute (non-negative) nanosecond instant — the spec's data-model
invariant, and true of every entry the code itself writes. -/
abbrev WFItems (xs : List (String × Item)) : Prop :=
  ∀ kv ∈ xs, 0 ≤ kv.2.Expiration

/-! Helper lemmas about the association-list model of the Go map. -/

theorem mapLookup_mapSet_self (xs : List (String × Item)) (k : String) (v : Item) :
    mapLookup (mapSet xs k v) k = some v := by
  induction xs with
  | nil => simp [mapSet, mapLookup]
  | cons hd tl ih =>
    obtain ⟨k', v'⟩ := hd
    by_cases h : k' = k
    · simp [mapSet, mapLookup, h]
    · simp [mapSet, mapLookup, h, ih]

theorem mapLookup_mapSet_ne (xs : List (String × Item)) (k k' : String) (v : Item)
    (h : k' ≠ k) : mapLookup (mapSet xs k' v) k = mapLookup xs k := by
  induction xs with
  | nil => simp [mapSet, mapLookup, h]
  | cons hd tl ih =>
    obtain ⟨k₀, v₀⟩ := hd
    by_cases h0 : k₀ = k'
    · subst h0; simp [mapSet, mapLookup, h]
    · simp [mapSet, mapLookup, h0, ih]

theorem mapLookup_mem (xs : List (String × Item)) (k : String) (v : Item)
    (h : mapLookup xs k = some v) : (k, v) ∈ xs := by
  induction xs with
  | nil => simp [mapLookup] at h
  | cons hd tl ih =>
    obtain ⟨k', v'⟩ := hd
    by_cases h0 : k' = k
    · subst h0
      simp [mapLookup] at h
      simp [h]
    · simp [mapLookup, h0] at h
      exact List.mem_cons_of_mem _ (ih h)

theorem mapLookup_eq_none_iff (xs : List (String × Item)) (k : String) :
    mapLookup xs k = none ↔ k ∉ xs.map Prod.fst := by
  induction xs with
  | nil => simp [mapLookup]
  | cons hd tl ih =>
    obtain ⟨k', v'⟩ := hd
    by_cases h0 : k' = k
    · subst h0; simp [mapLookup]
    · simp [mapLookup, h0, ih, Ne.symm h0]

theorem length_le_mapSet (xs : List (String × Item)) (k : String) (v : Item) :
    xs.length ≤ (mapSet xs k v).length := by
  induction xs with
  | nil => simp [mapSet]
  | cons hd tl ih =>
    obtain ⟨k', v'⟩ := hd
    by_cases h0 : k' = k
    · simp [mapSet, h0]
    · simpa [mapSet, h0] using ih

theorem mapLookup_filter_of_not_mem (xs : List (String × Item)) (k : String)
    (p : String × Item → Bool) (h : k ∉ xs.map Prod.fst) :
    mapLookup (xs.filter p) k = none := by
  induction xs with
  | nil => simp [mapLookup]
  | cons hd tl ih =>
    obtain ⟨k', v'⟩ := hd
    simp only [List.map_cons, List.mem_cons, not_or] at h
    have hne : ¬k' = k := fun hh => h.1 hh.symm
    by_cases hp : p (k', v')
    · simp only [List.filter_cons, hp, if_pos]
      simp [mapLookup, hne, ih h.2]
    · simp only [List.filter_cons, hp]
      simpa using ih h.2

theorem mapLookup_filter (xs : List (String × Item)) (k : String) (v : Item)
    (p : String × Item → Bool) (hnd : (xs.map Prod.fst).Nodup) :
    mapLookup (xs.filter p) k = some v ↔
      mapLookup xs k = some v ∧ p (k, v) = true := by
  induction xs with
  | nil => simp [mapLookup]
  | cons hd tl ih =>
    obtain ⟨k', v'⟩ := hd
    simp only [List.map_cons, List.nodup_cons] at hnd
    by_cases h0 : k' = k
    · subst h0
      by_cases hp : p (k', v')
      · simp only [List.filter_cons, hp, if_pos]
        simp only [mapLookup, if_pos, Option.some.injEq, eq_self_iff_true, if_true]
        constructor
        · rintro rfl; exact ⟨rfl, hp⟩
        · exact fun hh => hh.1
      · have hp' : p (k', v') = false := by simpa using hp
        simp only [List.filter_cons, hp', Bool.false_eq_true, ite_false]
        rw [mapLookup_filter_of_not_mem _ _ _ hnd.1]
        constructor
        · intro hh; cases hh
        · rintro ⟨hv, hpv⟩
          have hv' : v' = v := by simpa [mapLookup] using hv
          rw [← hv'] at hpv
          rw [hp'] at hpv
          cases hpv
    · by_cases hp : p (k', v')
      · simp only [List.filter_cons, hp, if_pos]
        simp [mapLookup, h0, ih hnd.2]
      · simp only [List.filter_cons, hp]
        simp [mapLookup, h0, ih hnd.2]

theorem mapLookup_foldl_of_not_mem (items : List (String × Item))
    (t : List (String × Item)) (k : String) (h : k ∉ items.map Prod.fst) :
    mapLookup (items.foldl (fun acc kv => mapSet acc kv.1 kv.2) t) k =
      mapLookup t k := by
  induction items generalizing t with
  | nil => simp
  | cons hd tl ih =>
    obtain ⟨k', v'⟩ := hd
    simp only [List.map_cons, List.mem_cons, not_or] at h
    simp only [List.foldl_cons]
    rw [ih _ h.2, mapLookup_mapSet_ne _ _ _ _ (fun hh => h.1 hh.symm)]

theorem mapLookup_foldl_of_mem (items : List (String × Item))
    (t : List (String × Item)) (k : String) (v : Item)
    (hnd : (items.map Prod.fst).Nodup) (h : mapLookup items k = some v) :
    mapLookup (items.foldl (fun acc kv => mapSet acc kv.1 kv.2) t) k = some v := by
  induction items generalizing t with
  | nil => simp [mapLookup] at h
  | cons hd tl ih =>
    obtain ⟨k', v'⟩ := hd
    simp only [List.map_cons, List.nodup_cons] at hnd
    by_cases h0 : k' = k
    · subst h0
      simp only [mapLookup, if_pos] at h
      simp only [List.foldl_cons]
      rw [mapLookup_foldl_of_not_mem _ _ _ hnd.1, mapLookup_mapSet_self]
      simpa using h
    · simp only [mapLookup, h0, if_neg, ite_false] at h
      simp only [List.foldl_cons]
      exact ih _ hnd.2 h

theorem length_filter_split {α : Type} (xs : List α) (p q : α → Bool)
    (h : ∀ a ∈ xs, q a = !p a) :
    xs.length = (xs.filter p).length + (xs.filter q).length := by
  induction xs with
  | nil => simp
  | cons hd tl ih =>
    have hhd := h hd (by simp)
    have htl : ∀ a ∈ tl, q a = !p a := fun a ha => h a (by simp [ha])
    by_cases hp : p hd
    · simp [List.filter_cons, hp, hhd, ih htl]
      omega
    · simp only [Bool.not_eq_true] at hp
      simp [List.filter_cons, hp, hhd, ih htl]
      omega

/-! Round-trip lemmas for the codec. -/

theorem decInt_encInt (i : Int) (r : List Nat) : decInt (encInt i ++ r) = some (i, r) := by
  by_cases h : i ≥ 0
  · simp [encInt, decInt, h, Int.toNat_of_nonneg h]
  · have h1 : (0 : Int) ≤ -i := by omega
    simp [encInt, decInt, h, Int.toNat_of_nonneg h1]

theorem decChars_enc (cs : List Char) (r : List Nat) :
    decChars cs.length (cs.map Char.toNat ++ r) = some (cs, r) := by
  induction cs with
  | nil => simp [decChars]
  | cons c tl ih => simp [decChars, ih, Char.ofNat_toNat]

theorem decString_encString (s : String) (r : List Nat) :
    decString (encString s ++ r) = some (s, r) := by
  have h : decChars s.length (List.map Char.toNat s.data ++ r) = some (s.data, r) :=
    decChars_enc s.data r
  simp [encString, decString, h]

theorem decValue_encValue (v : GoValue) (r : List Nat) :
    decValue (encValue v ++ r) = some (v, r) := by
  cases v with
  | vstr s => simp [encValue, decValue, decString_encString]
  | vint i => simp [encValue, decValue, decInt_encInt]
  | vbool b => cases b <;> simp [encValue, decValue]

theorem decEntry_encEntry (kv : String × Item) (r : List Nat) :
    decEntry (encEntry kv ++ r) = some (kv, r) := by
  obtain ⟨k, v⟩ := kv
  simp [encEntry, decEntry, List.append_assoc, decString_encString, decInt_encInt,
    decValue_encValue]

theorem decEntries_encEntries (m : List (String × Item)) (r : List Nat) :
    decEntries m.length (encEntries m ++ r) = some (m, r) := by
  induction m with
  | nil => simp [encEntries, decEntries]
  | cons kv tl ih =>
    simp [encEntries, decEntries, List.append_assoc, decEntry_encEntry, ih]

theorem decodeItems_encodeItems (m : List (String × Item)) :
    decodeItems (encodeItems m) = some m := by
  have h := decEntries_encEntries m []
  rw [List.append_nil] at h
  simp [encodeItems, decodeItems, h]

theorem Get_of_not_expired (s : Storage) (now : Int) (key : String) (it : Item)
    (h : mapLookup s.items key = some it) (he : it.Expired now = false) :
    s.Get now key = (some it.Object, true) := by
  have hcond : ¬(it.Expiration > 0 ∧ now > it.Expiration) := by
    simp only [Item.Expired] at he
    split at he
    · omega
    · simp only [decide_eq_false_iff_not, not_lt] at he
      omega
  simp [Storage.Get, h, hcond]

/-- Claim C1: for every well-formed cache state and every clock instant,
`Get(key)` returns `found = false` iff the key is absent from the table or
its entry is expired in the sense of `Item.Expired` (sentinel `0` never
expires; otherwise expired iff strictly `now > Expiration`); otherwise `Get`
returns the stored value with `found = true`, independently of whether the
Janitor has swept. -/
theorem Get_found_spec (s : Storage) (now : Int) (key : String)
    (hwf : WFItems s.items) :
    ((s.Get now key).2 = false ↔
      mapLookup s.items key = none ∨
        ∃ it, mapLookup s.items key = some it ∧ it.Expired now = true)
    ∧ (∀ it, mapLookup s.items key = some it → it.Expired now = false →
        s.Get now key = (some it.Object, true)) := by
  constructor
  · cases h : mapLookup s.items key with
    | none => simp [Storage.Get, h]
    | some it =>
      have hexp : 0 ≤ it.Expiration := hwf _ (mapLookup_mem _ _ _ h)
      by_cases hc : it.Expiration > 0 ∧ now > it.Expiration
      · have hGet : s.Get now key = (none, false) := by
          simp [Storage.Get, h, hc]
        rw [hGet]
        constructor
        · intro _
          refine Or.inr ⟨it, rfl, ?_⟩
          simp only [Item.Expired]
          split
          · exfalso; omega
          · simpa using hc.2
        · intro _; rfl
      · have hGet : s.Get now key = (some it.Object, true) := by
          simp [Storage.Get, h, hc]
        rw [hGet]
        simp only [Bool.true_eq_false, false_iff]
        rintro (hnone | ⟨it', hit', hexp'⟩)
        · cases hnone
        · rw [Option.some.injEq] at hit'
          subst hit'
          simp only [Item.Expired] at hexp'
          split at hexp'
          · cases hexp'
          · simp only [decide_eq_true_eq] at hexp'
            omega
  · intro it h he
    exact Get_of_not_expired s now key it h he

/-- Witness for claim C1 at a concrete expired entry. -/
theorem Get_found_spec_witness :
    (Storage.Get ⟨-1, [("a", ⟨.vstr "x", 5⟩)], none⟩ 10 "a").2 = false :=
  ((Get_found_spec ⟨-1, [("a", ⟨.vstr "x", 5⟩)], none⟩ 10 "a" (by decide)).1).mpr
    (Or.inr ⟨⟨.vstr "x", 5⟩, by decide, by decide⟩)

/-- Claim C2: `Add` fails with the already-exists error iff the key is present
in the table (even when the present entry is already expired), in that case
the table is unchanged and `Get` still answers from the previously stored
entry; on an absent key `Add` behaves exactly like `Set` and returns no
error. -/
theorem Add_spec (s : Storage) (now : Int) (key : String) (value : GoValue)
    (d : Int) :
    ((s.Add now key value d).2.isSome ↔ (mapLookup s.items key).isSome)
    ∧ ((s.Add now key value d).2.isSome → (s.Add now key value d).1 = s)
    ∧ (∀ it now2, mapLookup s.items key = some it → it.Expired now2 = false →
        ((s.Add now key value d).1).Get now2 key = (some it.Object, true))
    ∧ (mapLookup s.items key = none →
        s.Add now key value d = (s.Set now key value d, none)) := by
  cases h : mapLookup s.items key with
  | none =>
    refine ⟨by simp [Storage.Add, h], by simp [Storage.Add, h], ?_, ?_⟩
    · intro it now2 hit
      cases hit
    · intro _
      simp only [Storage.Add, h]
      rfl
  | some it0 =>
    refine ⟨by simp [Storage.Add, h], by simp [Storage.Add, h], ?_, ?_⟩
    · intro it now2 hit he
      rw [Option.some.injEq] at hit
      subst hit
      have h1 : (s.Add now key value d).1 = s := by simp [Storage.Add, h]
      rw [h1]
      exact Get_of_not_expired s now2 key it0 h he
    · intro hnone
      cases hnone

/-- Witness for claim C2: adding over an already-expired entry still fails and
leaves the table unchanged. -/
theorem Add_spec_witness :
    (Storage.Add ⟨-1, [("k", ⟨.vint 7, 3⟩)], none⟩ 100 "k" (.vstr "w") 0).1
      = ⟨-1, [("k", ⟨.vint 7, 3⟩)], none⟩ :=
  (Add_spec ⟨-1, [("k", ⟨.vint 7, 3⟩)], none⟩ 100 "k" (.vstr "w") 0).2.1 (by decide)

/-- Claim C3: `Load` merges rather than replaces — every key decoded from the
stream afterwards maps to its decoded entry (overwriting any existing entry of
the same key), while every key not present in the stream keeps exactly its
previous entry; the decoded keys are unique because Go decodes into a map. -/
theorem Load_merge_spec (s : Storage) (stream : List Nat)
    (decoded : List (String × Item)) (hdec : decodeItems stream = some decoded)
    (hnd : (decoded.map Prod.fst).Nodup) :
    (∀ k v, mapLookup decoded k = some v →
        mapLookup ((s.Load stream).1).items k = some v)
    ∧ (∀ k, mapLookup decoded k = none →
        mapLookup ((s.Load stream).1).items k = mapLookup s.items k)
    ∧ (s.Load stream).2 = true := by
  have hload : s.Load stream =
      ({ s with items := decoded.foldl (fun acc kv => mapSet acc kv.1 kv.2) s.items },
        true) := by
    simp [Storage.Load, hdec]
  refine ⟨?_, ?_, by rw [hload]⟩
  · intro k v hv
    rw [hload]
    exact mapLookup_foldl_of_mem decoded s.items k v hnd hv
  · intro k hk
    rw [hload]
    exact mapLookup_foldl_of_not_mem decoded s.items k
      ((mapLookup_eq_none_iff decoded k).mp hk)

/-- Witness for claim C3: loading a stream that overwrites key `a` and brings
key `c` into a table holding `a` and `b` reverts `a`, keeps `b`, adds `c`. -/
theorem Load_merge_spec_witness :
    mapLookup ((Storage.Load ⟨-1, [("a", ⟨.vint 2, 0⟩), ("b", ⟨.vint 3, 0⟩)], none⟩
        (encodeItems [("a", ⟨.vint 1, 0⟩), ("c", ⟨.vbool true, 0⟩)])).1).items "b"
      = some ⟨.vint 3, 0⟩ :=
  (Load_merge_spec ⟨-1, [("a", ⟨.vint 2, 0⟩), ("b", ⟨.vint 3, 0⟩)], none⟩
      (encodeItems [("a", ⟨.vint 1, 0⟩), ("c", ⟨.vbool true, 0⟩)])
      [("a", ⟨.vint 1, 0⟩), ("c", ⟨.vbool true, 0⟩)]
      (by decide) (by decide)).2.1 "b" (by decide)

/-- Claim C4: the persistence codec round-trips — decoding what `Save`
encodes reproduces the snapshot exactly: same keys, same values with their
dynamic type tags, same absolute expiry instants; this holds for every
snapshot, in particular heterogeneously typed ones. -/
theorem Save_Load_roundtrip :
    (∀ m : List (String × Item), decodeItems (encodeItems m) = some m)
    ∧ (∀ (s : Storage) (now : Int), decodeItems (s.Save now) = some (s.Items now)) :=
  ⟨decodeItems_encodeItems,
    fun s now => decodeItems_encodeItems (s.Items now)⟩

/-- Claim C9: when decoding fails, `Load` reports the error and leaves the
table exactly unchanged — the merge runs only under `err == nil`. -/
theorem Load_error_spec (s : Storage) (stream : List Nat)
    (h : decodeItems stream = none) :
    s.Load stream = (s, false) := by
  simp [Storage.Load, h]

/-- Witness for claim C9 on a concrete truncated stream. -/
theorem Load_error_spec_witness :
    decodeItems [3] = none
    ∧ Storage.Load ⟨-1, [("a", ⟨.vint 2, 0⟩)], none⟩ [3]
        = (⟨-1, [("a", ⟨.vint 2, 0⟩)], none⟩, false) :=
  ⟨by decide, Load_error_spec ⟨-1, [("a", ⟨.vint 2, 0⟩)], none⟩ [3] (by decide)⟩

theorem Expired_eq_decide (it : Item) (now : Int) :
    it.Expired now = decide (it.Expiration ≠ 0 ∧ now > it.Expiration) := by
  simp only [Item.Expired]
  split
  · simp [*]
  · simp [*]

/-- Claim C5: `Items()` returns a snapshot holding exactly the entries that
are not expired at the call's own instant — every non-expired entry appears
unchanged, and no entry whose expiry has passed appears, swept or not. -/
theorem Items_spec (s : Storage) (now : Int) (hwf : WFItems s.items)
    (hnd : NodupKeys s.items) (k : String) (v : Item) :
    mapLookup (s.Items now) k = some v ↔
      mapLookup s.items k = some v ∧ v.Expired now = false := by
  unfold Storage.Items
  rw [mapLookup_filter _ _ _ _ hnd]
  constructor
  · rintro ⟨hl, hp⟩
    have hexp : 0 ≤ v.Expiration := hwf _ (mapLookup_mem _ _ _ hl)
    refine ⟨hl, ?_⟩
    simp only [decide_eq_true_eq] at hp
    rw [Expired_eq_decide]
    simp only [decide_eq_false_iff_not]
    omega
  · rintro ⟨hl, he⟩
    have hexp : 0 ≤ v.Expiration := hwf _ (mapLookup_mem _ _ _ hl)
    refine ⟨hl, ?_⟩
    rw [Expired_eq_decide] at he
    simp only [decide_eq_false_iff_not] at he
    simp only [decide_eq_true_eq]
    omega

/-- Witness for claim C5: a live entry with never-expire sentinel is kept in
the snapshot taken next to an expired neighbour. -/
theorem Items_spec_witness :
    mapLookup (Storage.Items ⟨-1, [("a", ⟨.vint 1, 5⟩), ("b", ⟨.vint 2, 0⟩)], none⟩ 10) "b"
      = some ⟨.vint 2, 0⟩ :=
  (Items_spec ⟨-1, [("a", ⟨.vint 1, 5⟩), ("b", ⟨.vint 2, 0⟩)], none⟩ 10
    (by decide) (by decide) "b" ⟨.vint 2, 0⟩).mpr ⟨by decide, by decide⟩

/-- Claim C6: `DeleteExpired()` removes exactly the entries whose expiry
instant lies strictly before the single instant captured at the start of the
scan — the never-expire sentinel is never removed — and leaves every other
entry unchanged. -/
theorem DeleteExpired_spec (s : Storage) (now : Int) (hwf : WFItems s.items)
    (hnd : NodupKeys s.items) (k : String) (v : Item) :
    mapLookup ((s.DeleteExpired now).items) k = some v ↔
      mapLookup s.items k = some v ∧ ¬(v.Expiration ≠ 0 ∧ v.Expiration < now) := by
  show mapLookup (s.items.filter _) k = some v ↔ _
  rw [mapLookup_filter _ _ _ _ hnd]
  constructor
  · rintro ⟨hl, hp⟩
    have hexp : 0 ≤ v.Expiration := hwf _ (mapLookup_mem _ _ _ hl)
    simp only [decide_eq_true_eq] at hp
    exact ⟨hl, by omega⟩
  · rintro ⟨hl, he⟩
    have hexp : 0 ≤ v.Expiration := hwf _ (mapLookup_mem _ _ _ hl)
    refine ⟨hl, ?_⟩
    simp only [decide_eq_true_eq]
    omega

/-- Witness for claim C6: the sweep removes an entry expired before the scan
instant and keeps a never-expire entry. -/
theorem DeleteExpired_spec_witness :
    mapLookup ((Storage.DeleteExpired ⟨-1, [("a", ⟨.vint 1, 5⟩), ("b", ⟨.vint 2, 0⟩)], none⟩ 10).items) "b"
      = some ⟨.vint 2, 0⟩ :=
  (DeleteExpired_spec ⟨-1, [("a", ⟨.vint 1, 5⟩), ("b", ⟨.vint 2, 0⟩)], none⟩ 10
    (by decide) (by decide) "b" ⟨.vint 2, 0⟩).mpr ⟨by decide, by decide⟩

/-- Claim C7: `ItemCount()` is the raw table size — the live snapshot size
plus the expired-but-unswept entries — and it never decreases under `Set` or
`Add`; in this embedding it takes no clock argument at all, so mere passage
of time cannot change it. -/
theorem ItemCount_spec (s : Storage) (now : Int) (hwf : WFItems s.items) :
    s.ItemCount = ((s.Items now).length : Int)
        + ((s.items.filter (fun kv => kv.2.Expired now)).length : Int)
    ∧ (∀ k v d, s.ItemCount ≤ (s.Set now k v d).ItemCount)
    ∧ (∀ k v d, s.ItemCount ≤ ((s.Add now k v d).1).ItemCount) := by
  refine ⟨?_, ?_, ?_⟩
  · have hpt : ∀ kv ∈ s.items, (fun kv => kv.2.Expired now) kv
        = !((fun kv => decide ¬(kv.2.Expiration > 0 ∧ now > kv.2.Expiration)) kv) := by
      intro kv hkv
      have h0 : 0 ≤ kv.2.Expiration := hwf kv hkv
      simp only [Expired_eq_decide, decide_not, Bool.not_not]
      exact decide_eq_decide.mpr (by omega)
    have hlen := length_filter_split s.items
      (fun kv => decide ¬(kv.2.Expiration > 0 ∧ now > kv.2.Expiration))
      (fun kv => kv.2.Expired now) hpt
    simp only [Storage.ItemCount, Storage.Items]
    omega
  · intro k v d
    simp only [Storage.ItemCount, Storage.Set]
    exact_mod_cast length_le_mapSet s.items k _
  · intro k v d
    cases h : mapLookup s.items k with
    | some it0 => simp [Storage.Add, h]
    | none =>
      simp only [Storage.Add, h]
      simp only [Storage.ItemCount, Storage.set]
      exact_mod_cast length_le_mapSet s.items k _

/-- Witness for claim C7 on a table holding one expired and one live entry. -/
theorem ItemCount_spec_witness :
    Storage.ItemCount ⟨-1, [("a", ⟨.vint 1, 5⟩), ("b", ⟨.vint 2, 0⟩)], none⟩
      = ((Storage.Items ⟨-1, [("a", ⟨.vint 1, 5⟩), ("b", ⟨.vint 2, 0⟩)], none⟩ 10).length : Int)
        + (([("a", ⟨.vint 1, 5⟩), ("b", ⟨.vint 2, 0⟩)] :
            List (String × Item)).filter (fun kv => kv.2.Expired 10)).length :=
  (ItemCount_spec ⟨-1, [("a", ⟨.vint 1, 5⟩), ("b", ⟨.vint 2, 0⟩)], none⟩ 10 (by decide)).1

/-- Counterexample to claim C8: no exported operation of the `storage` package
signals the Janitor's stop channel — there is no explicit public shutdown
operation at all. -/
theorem no_exported_stop_op : ¬∃ op : StorageOp, op.stopsJanitor = true := by
  rintro ⟨op, hop⟩
  cases op <;> simp [StorageOp.stopsJanitor] at hop

/-- Amended claim C8: the implementation exposes no public shutdown operation;
instead, whenever the cleanup interval is positive, `newsWithJanitor`
registers the unexported `stopJanitor` as a garbage-collection finalizer on
the `Storage` — i.e. the code relies on finalization to signal the Janitor's
stop, and that signal does mark the janitor stopped when delivered. -/
theorem janitor_stop_via_finalizer (de ci : Int) (m : List (String × Item))
    (hci : ci > 0) :
    (newsWithJanitor de ci m).2 = some stopJanitor
    ∧ (∀ op : StorageOp, op.stopsJanitor = false)
    ∧ (∀ j : Janitor,
        (stopJanitor { newStorage de m with janitor := some j }).janitor
          = some { j with stopSignaled := true }) := by
  refine ⟨?_, ?_, ?_⟩
  · simp [newsWithJanitor, hci]
  · intro op; cases op <;> rfl
  · intro j; rfl

/-- Witness for amended claim C8 at a concrete positive cleanup interval. -/
theorem janitor_stop_via_finalizer_witness :
    (newsWithJanitor 0 10 []).2 = some stopJanitor :=
  (janitor_stop_via_finalizer 0 10 [] (by decide)).1

/-- Claim C10: a cache built with default expiration `0` silently stores
`NoExpiration` as its default, so `Set`/`Add` with the default duration make
never-expiring entries; more generally `Set` stores the never-expire sentinel
`0` for every non-positive effective duration. -/
theorem Set_nonpositive_spec (m : List (String × Item)) (s : Storage)
    (now : Int) (k : String) (v : GoValue) (d : Int)
    (h : (if d = 0 then s.defaultExpiration else d) ≤ 0) :
    mapLookup ((s.Set now k v d).items) k = some { Object := v, Expiration := 0 }
    ∧ (newStorage 0 m).defaultExpiration = NoExpiration
    ∧ (∀ now2 k2 v2,
        mapLookup (((newStorage 0 m).Set now2 k2 v2 DefaultExpiration).items) k2
          = some { Object := v2, Expiration := 0 })
    ∧ (∀ now2 k2 v2, mapLookup m k2 = none →
        mapLookup (((newStorage 0 m).Add now2 k2 v2 DefaultExpiration).1).items k2
          = some { Object := v2, Expiration := 0 }) := by
  have hset : ∀ (s' : Storage) (now' : Int) (k' : String) (v' : GoValue) (d' : Int),
      (if d' = 0 then s'.defaultExpiration else d') ≤ 0 →
      mapLookup ((s'.Set now' k' v' d').items) k'
        = some { Object := v', Expiration := 0 } := by
    intro s' now' k' v' d' h'
    have hexp : (if (if d' = DefaultExpiration then s'.defaultExpiration else d') > 0
        then now' + (if d' = DefaultExpiration then s'.defaultExpiration else d')
        else 0) = 0 := by
      rw [if_neg]
      simp only [DefaultExpiration] at h' ⊢
      split at h' <;> omega
    simp only [Storage.Set]
    rw [hexp]
    exact mapLookup_mapSet_self _ _ _
  have hdef : (newStorage 0 m).defaultExpiration = NoExpiration := rfl
  refine ⟨hset s now k v d h, hdef, ?_, ?_⟩
  · intro now2 k2 v2
    exact hset _ now2 k2 v2 DefaultExpiration (by simp [hdef, NoExpiration, DefaultExpiration])
  · intro now2 k2 v2 hnone
    have hAdd : ((newStorage 0 m).Add now2 k2 v2 DefaultExpiration).1
        = (newStorage 0 m).set now2 k2 v2 DefaultExpiration := by
      simp [Storage.Add, newStorage, hnone]
    rw [hAdd]
    show mapLookup (((newStorage 0 m).Set now2 k2 v2 DefaultExpiration).items) k2 = _
    exact hset _ now2 k2 v2 DefaultExpiration (by simp [hdef, NoExpiration, DefaultExpiration])

/-- Witness for claim C10: `Set` with the distinguished never-expire duration
stores the sentinel expiry `0`. -/
theorem Set_nonpositive_spec_witness :
    mapLookup ((Storage.Set ⟨5, [], none⟩ 100 "k" (.vbool true) (-1)).items) "k"
      = some { Object := .vbool true, Expiration := 0 } :=
  (Set_nonpositive_spec [] ⟨5, [], none⟩ 100 "k" (.vbool true) (-1) (by decide)).1

end KVStorage
